import Mathlib

set_option autoImplicit false
set_option maxRecDepth 100000

namespace GitFsmonitor

/- ==================================================================
   Shallow embedding of fsmonitor.c (the filesystem-monitor core).

   Byte strings (C `char *` / strbuf contents) are `List Nat`, one Nat
   per byte.  NUL is 0, the slash separator is 47.  Machine integers
   are Nat with explicit `% 256` / `% 2 ^ 32` where the code truncates.
   External collaborators (the ewah bitmap library, the index
   name-hash, the untracked cache, the oracle transports) are modelled
   from the specification, as marked on each definition.
   ================================================================== -/

/-- Strict bytewise lexicographic order on byte strings, as produced by
`memcmp`-style comparison of pathnames (the order of the index). -/
def lexLt : List Nat → List Nat → Bool
  | [], [] => false
  | [], _ :: _ => true
  | _ :: _, [] => false
  | a :: as, b :: bs => a < b || (a == b && lexLt as bs)

/-- C `starts_with(str, pre)`: does `s` begin with the bytes of `p`. -/
def starts_with : List Nat → List Nat → Bool
  | _, [] => true
  | [], _ :: _ => false
  | a :: as, b :: bs => a == b && starts_with as bs

/-- `put_be32`: big-endian serialization of a 32-bit value. -/
def put_be32 (v : Nat) : List Nat :=
  [v / 2 ^ 24 % 256, v / 2 ^ 16 % 256, v / 2 ^ 8 % 256, v % 256]

/-- `get_be32`: big-endian read of 4 bytes at the head of the buffer.
Reading past the end yields 0 bytes (the C code would read garbage;
the inputs of interest never do). -/
def get_be32 (l : List Nat) : Nat :=
  l.getD 0 0 * 2 ^ 24 + l.getD 1 0 * 2 ^ 16 + l.getD 2 0 * 2 ^ 8 + l.getD 3 0

/-- `get_be64`: big-endian read of 8 bytes at the head of the buffer. -/
def get_be64 (l : List Nat) : Nat :=
  get_be32 l * 2 ^ 32 + get_be32 (l.drop 4)

/-- `strbuf_addf(&buf, PRIu64, v)`: decimal ASCII rendering of a
64-bit value, as a byte string. -/
def decimalAscii (n : Nat) : List Nat :=
  (Nat.repr n).data.map Char.toNat

/-- The literal token `"builtin:fake"` used by the IPC path. -/
def builtin_fake : List Nat :=
  "builtin:fake".data.map Char.toNat

/-- One index entry (`struct cache_entry`), projected to the fields the
fsmonitor core reads or writes: the pathname, the `CE_FSMONITOR_VALID`
flag (`valid`), whether the mode is a gitlink (`S_ISGITLINK`), and the
`CE_REMOVE` flag. -/
structure Entry where
  name : List Nat
  valid : Bool
  gitlink : Bool
  remove : Bool
deriving DecidableEq, Repr

/-- Clear `CE_FSMONITOR_VALID` on one entry (`my_invalidate_ce_fsm`,
minus its trace message). -/
def inval (e : Entry) : Entry :=
  { e with valid := false }

/- ==================================================================
   Component C1: the extension codec (read/write and the bitmap).
   ================================================================== -/

/-- The slice of `struct index_state` that the extension codec touches:
`fsmonitor_last_update` (the token) and `fsmonitor_dirty` (the parsed
bitmap). -/
structure ExtState where
  last_update : Option (List Nat)
  fsmonitor_dirty : Option (List Bool)
deriving DecidableEq, Repr

/-- The three parse failures of `read_fsmonitor_extension` (the C code
returns -1 with distinct error messages). -/
inductive ExtErr
  | Corrupt
  | BadVersion
  | CorruptBitmap
deriving DecidableEq, Repr

/-- Modelled from the spec: the compressed bitmap library is an
external collaborator ("assumed to provide create, set-bit, serialize,
parse").  A bitmap is the list of its bits; serialization is a 4-byte
big-endian bit count followed by one byte per bit. -/
def ewah_serialize (bm : List Bool) : List Nat :=
  put_be32 bm.length ++ bm.map (fun b => if b then 1 else 0)

/-- Modelled from the spec: `ewah_read_mmap(bitmap, map, len)` parses a
serialized bitmap from the start of `data`, refusing to read more than
`len` bytes, and returns the bitmap together with the number of bytes
consumed (`none` models a negative return). -/
def ewah_read_mmap (data : List Nat) (len : Nat) : Option (List Bool × Nat) :=
  if len < 4 then none
  else
    let n := get_be32 data
    if 4 + n ≤ len ∧ 4 + n ≤ data.length then
      some (((data.drop 4).take n).map (fun b => b != 0), 4 + n)
    else none

/-- Shared tail of `read_fsmonitor_extension` after the version header
has been decoded: store the token, read `ewah_size`, parse the bitmap,
and fail with `CorruptBitmap` unless the parser consumed exactly
`ewah_size` bytes.  Note that the token assignment
(`istate->fsmonitor_last_update = strbuf_detach(...)`) happens before
the bitmap is parsed. -/
def read_ext_tail (st : ExtState) (tok : List Nat) (index2 : List Nat) :
    ExtState × Except ExtErr Unit :=
  let st1 := { st with last_update := some tok }
  let ewah_size := get_be32 index2
  let index3 := index2.drop 4
  match ewah_read_mmap index3 ewah_size with
  | some (bm, consumed) =>
      if consumed = ewah_size then
        ({ st1 with fsmonitor_dirty := some bm }, Except.ok ())
      else (st1, Except.error ExtErr.CorruptBitmap)
  | none => (st1, Except.error ExtErr.CorruptBitmap)

/-- `read_fsmonitor_extension(istate, data, sz)` with `sz` the length
of `data`.  The `assert_index_minimum` bound check (a `BUG` on indices
built by other subsystems) and the trace output are omitted. -/
def read_fsmonitor_extension (st : ExtState) (data : List Nat) :
    ExtState × Except ExtErr Unit :=
  if data.length < 4 + 1 + 4 then (st, Except.error ExtErr.Corrupt)
  else
    let hdr_version := get_be32 data
    let index1 := data.drop 4
    if hdr_version = 1 then
      read_ext_tail st (decimalAscii (get_be64 index1)) (index1.drop 8)
    else if hdr_version = 2 then
      let tok := index1.takeWhile (fun b => b != 0)
      read_ext_tail st tok (index1.drop (tok.length + 1))
    else (st, Except.error ExtErr.BadVersion)

/-- `write_fsmonitor_extension(sb, istate)`: emit version 2, the token
bytes, a NUL, a reserved 4-byte length, then the serialized bitmap;
finally back-patch the reserved bytes with the serialized size
(big-endian).  The produced byte string is returned. -/
def write_fsmonitor_extension (tok : List Nat) (bm : List Bool) : List Nat :=
  let sb0 := put_be32 2 ++ tok ++ [0]
  let fixup := sb0.length
  let sb1 := sb0 ++ put_be32 0
  let ewah_start := sb1.length
  let sb2 := sb1 ++ ewah_serialize bm
  let ewah_size := sb2.length - ewah_start
  sb2.take fixup ++ put_be32 ewah_size ++ sb2.drop (fixup + 4)

/-- `ewah_set(bitmap, i)`: set bit `i`, growing the bitmap as needed
(modelled from the spec: the bitmap library provides set-bit). -/
def ewah_set : List Bool → Nat → List Bool
  | [], 0 => [true]
  | [], k + 1 => false :: ewah_set [] k
  | _ :: bs, 0 => true :: bs
  | b :: bs, k + 1 => b :: ewah_set bs k

/-- Loop body of `fill_fsmonitor_bitmap`: `i` is the entry index,
`skipped` counts entries flagged `CE_REMOVE` seen so far; a non-skipped
entry without `CE_FSMONITOR_VALID` sets bit `i - skipped`. -/
def fill_loop : List Entry → Nat → Nat → List Bool → List Bool
  | [], _, _, bm => bm
  | e :: rest, i, skipped, bm =>
      if e.remove then fill_loop rest (i + 1) (skipped + 1) bm
      else if !e.valid then fill_loop rest (i + 1) skipped (ewah_set bm (i - skipped))
      else fill_loop rest (i + 1) skipped bm

/-- `fill_fsmonitor_bitmap(istate)`: build the dirty bitmap over the
entries, in order, skipping entries flagged for removal. -/
def fill_fsmonitor_bitmap (es : List Entry) : List Bool :=
  fill_loop es 0 0 []

/-- `ewah_each_bit(bitmap, fsmonitor_ewah_callback, istate)`: for every
set bit, clear `CE_FSMONITOR_VALID` on the entry at that position.
Bits beyond the entry list would `BUG` in C and are ignored here. -/
def ewah_each_bit_clear : List Entry → List Bool → List Entry
  | [], _ => []
  | es, [] => es
  | e :: es, b :: bs => (if b then inval e else e) :: ewah_each_bit_clear es bs

/-- The bitmap-apply half of `tweak_fsmonitor` (feature enabled): mark
every non-gitlink entry valid, then clear the entries named by the
loaded dirty bitmap. -/
def tweak_fsmonitor_apply (es : List Entry) (bm : List Bool) : List Entry :=
  ewah_each_bit_clear
    (es.map (fun e => if e.gitlink then e else { e with valid := true })) bm

/- ==================================================================
   Component C3: the path invalidator.  The index lookups
   (index_name_pos, index_file_exists, index_dir_exists2) are external
   collaborators of this file, modelled from the spec.
   ================================================================== -/

/-- ASCII case folding of one byte. -/
def foldByte (b : Nat) : Nat :=
  if 65 ≤ b ∧ b ≤ 90 then b + 32 else b

/-- Case-folded equality of byte strings. -/
def foldEq (a b : List Nat) : Bool :=
  a.map foldByte == b.map foldByte

/-- Modelled from the spec: `index_name_pos(istate, name, len)` -
"ordered lookup by exact path, returns position or insertion point".
A non-negative result is the position of an exact match; a negative
result `-i-1` encodes the insertion point `i`. -/
def index_name_pos (es : List Entry) (name : List Nat) : Int :=
  let i := es.findIdx (fun e => !lexLt e.name name)
  match es[i]? with
  | some e => if e.name = name then (i : Int) else -(i : Int) - 1
  | none => -(es.length : Int) - 1

/-- Modelled from the spec: `index_file_exists(istate, name, len, 1)` -
the case-folded file lookup of the name-hash; returns the position of
the first entry whose path case-folds equal to `name`. -/
def index_file_exists (es : List Entry) (name : List Nat) : Option Nat :=
  es.findIdx? (fun e => foldEq e.name name)

/-- Modelled from the spec: `index_dir_exists2(istate, name, len, out)` -
the case-folded directory lookup of the name-hash, returning the stored
(canonical) spelling of the directory: the first entry whose path
extends `name` by a slash, case-insensitively, donates its spelling. -/
def index_dir_exists2 (es : List Entry) (name : List Nat) : Option (List Nat) :=
  match es.find? (fun e =>
      name.length < e.name.length
      && e.name.getD name.length 0 == 47
      && foldEq (e.name.take name.length) name) with
  | some e => some (e.name.take name.length)
  | none => none

/-- Clear the valid flag of the entry at position `i` (out-of-range
positions leave the list unchanged; the code never produces them). -/
def invalidateAt (es : List Entry) (i : Nat) : List Entry :=
  match es[i]? with
  | some e => es.set i (inval e)
  | none => es

/-- `my_callback_name_hash`: case-folded file lookup; on a hit,
invalidate exactly that entry and report 1 entry invalidated.  (The
untracked-cache notification is external and unmodelled.) -/
def my_callback_name_hash (es : List Entry) (name : List Nat) : List Entry × Nat :=
  match index_file_exists es name with
  | some i => (invalidateAt es i, 1)
  | none => (es, 0)

/-- `fsmonitor_refresh_callback_slash(istate, name, len, pos)`: scan
forward from the position (or decoded insertion point) while the entry
path starts with `name`, clearing the valid flag on each scanned entry;
return how many entries were scanned (the in-cone count). -/
def fsmonitor_refresh_callback_slash (es : List Entry) (name : List Nat)
    (pos : Int) : List Entry × Nat :=
  let start : Nat := if pos < 0 then (-pos - 1).toNat else pos.toNat
  let rest := es.drop start
  let hit := rest.takeWhile (fun e => starts_with e.name name)
  (es.take start ++ hit.map inval
     ++ rest.dropWhile (fun e => starts_with e.name name),
   hit.length)

/-- `my_callback_dir_name_hash`: case-folded directory lookup; if the
canonical spelling agrees bytewise with the observed name on its first
`len` bytes the function returns 0 ("should not happen"); otherwise it
appends a slash to the canonical spelling and reruns the cone scan. -/
def my_callback_dir_name_hash (es : List Entry) (name : List Nat) :
    List Entry × Nat :=
  match index_dir_exists2 es name with
  | none => (es, 0)
  | some canonical =>
      if canonical = name then (es, 0)
      else
        let cpath := canonical ++ [47]
        fsmonitor_refresh_callback_slash es cpath (index_name_pos es cpath)

/-- `fsmonitor_refresh_callback_unqualified`: exact match invalidates
one entry; otherwise synthesize `name ++ "/"` and run the cone scan. -/
def fsmonitor_refresh_callback_unqualified (es : List Entry) (name : List Nat)
    (pos : Int) : List Entry × Nat :=
  if 0 ≤ pos then (invalidateAt es pos.toNat, 1)
  else
    let work_path := name ++ [47]
    fsmonitor_refresh_callback_slash es work_path (index_name_pos es work_path)

/-- `fsmonitor_refresh_callback_unqualified_icase`: the case-folded
retry for a non-slash pathname. -/
def fsmonitor_refresh_callback_unqualified_icase (es : List Entry)
    (name : List Nat) : List Entry × Nat :=
  let r1 := my_callback_name_hash es name
  if r1.2 ≠ 0 then r1
  else my_callback_dir_name_hash r1.1 name

/-- `fsmonitor_refresh_callback_slash_icase`: the case-folded retry for
a slash-terminated pathname (the directory lookup drops the slash). -/
def fsmonitor_refresh_callback_slash_icase (es : List Entry)
    (name : List Nat) : List Entry × Nat :=
  let r1 := my_callback_name_hash es name
  if r1.2 ≠ 0 then r1
  else my_callback_dir_name_hash r1.1 (name.take (name.length - 1))

/-- `fsmonitor_refresh_callback(istate, name)`: dispatch on the last
byte of the name; when case-insensitive and the first pass invalidated
nothing, run the case-folded retry.  For the empty name (undefined
behavior in C: `name[len - 1]` reads before the buffer) the model reads
byte 0 of the empty string as 0 and takes the unqualified branch. -/
def fsmonitor_refresh_callback (ic : Bool) (es : List Entry)
    (name : List Nat) : List Entry :=
  let len := name.length
  let pos := index_name_pos es name
  if name.getD (len - 1) 0 == 47 then
    let r := fsmonitor_refresh_callback_slash es name pos
    if ic && r.2 == 0 then (fsmonitor_refresh_callback_slash_icase r.1 name).1
    else r.1
  else
    let r := fsmonitor_refresh_callback_unqualified es name pos
    if ic && r.2 == 0 then
      (fsmonitor_refresh_callback_unqualified_icase r.1 name).1
    else r.1

/- ==================================================================
   Components C2 and C4: oracle client and refresh driver.
   ================================================================== -/

/-- The loop of `refresh_fsmonitor` that walks the payload: a record is
cut at every NUL byte, and a final record without a trailing NUL is
also handed over.  `acc` is the record accumulated so far
(`buf + bol` up to `i`). -/
def split_loop : List Nat → List Nat → List (List Nat)
  | [], acc => if acc.isEmpty then [] else [acc]
  | 0 :: rest, acc => acc :: split_loop rest []
  | (b + 1) :: rest, acc => split_loop rest (acc ++ [b + 1])

/-- The exact sequence of pathnames that `refresh_fsmonitor` hands to
`fsmonitor_refresh_callback` for a given payload. -/
def fsmonitor_payload_paths (payload : List Nat) : List (List Nat) :=
  split_loop payload []

/-- Modelled from the spec (amended): split the payload at every NUL
into records, keeping interior empty records and dropping only a
trailing empty one.  Used to characterize `fsmonitor_payload_paths`. -/
def split_records_spec : List Nat → List (List Nat)
  | [] => []
  | 0 :: rest => [] :: split_records_spec rest
  | (b + 1) :: rest =>
      match split_records_spec rest with
      | [] => [[b + 1]]
      | s :: ss => ((b + 1) :: s) :: ss

/-- `fsmonitor_force_update_threshold`. -/
def fsmonitor_force_update_threshold : Nat := 100

/-- `enum fsmonitor_mode`. -/
inductive FsmMode
  | disabled
  | hook
  | ipc
deriving DecidableEq, Repr

/-- The slice of `struct index_state` the refresh driver touches. -/
structure IndexState where
  entries : List Entry
  last_update : Option (List Nat)
  has_run_once : Bool
  fsmonitor_changed : Bool
  untracked : Option Bool
deriving DecidableEq, Repr

/-- The process environment of one refresh: the configured mode, the
raw `core.fsmonitorhookversion` value, the clock (`getnanotime`), the
two oracle transports (`none` models a failed query), and the global
`ignore_case`. -/
structure RefreshEnv where
  mode : FsmMode
  core_fsmonitorhookversion : Option Int
  now : Nat
  ipc_response : List Nat → Option (List Nat)
  hook_response : Nat → List Nat → Option (List Nat)
  ignore_case : Bool

/-- `fsmonitor_hook_version()`: the configured hook version when it is
1 or 2, otherwise -1 (unset or invalid, with a warning). -/
def fsmonitor_hook_version (cfg : Option Int) : Int :=
  match cfg with
  | none => -1
  | some v => if v = 1 ∨ v = 2 then v else -1

/-- `query_fsmonitor_hook(r, version, last_update, out)`: refuse when
the mode is not hook, otherwise run the hook (an external process). -/
def query_fsmonitor_hook (env : RefreshEnv) (version : Nat)
    (last_update : List Nat) : Option (List Nat) :=
  if env.mode = FsmMode.hook then env.hook_response version last_update
  else none

/-- The `apply_results` tail of `refresh_fsmonitor`, including the
final token replacement (lines 741-743, which in C run just after the
branch).  On success with a non-trivial payload: hand every record to
the callback, count the records, enable the untracked cache for
fsmonitor, and force an index update when the record count exceeds the
threshold.  Otherwise: clear every valid flag, record whether anything
changed, and disable untracked-cache use of fsmonitor. -/
def apply_results (ic : Bool) (istate : IndexState) (query_success : Bool)
    (is_trivial : Bool) (payload : List Nat) (new_token : List Nat) :
    IndexState :=
  if query_success && !is_trivial then
    let paths := fsmonitor_payload_paths payload
    { istate with
      entries := paths.foldl (fun es n => fsmonitor_refresh_callback ic es n)
        istate.entries
      untracked := istate.untracked.map (fun _ => true)
      fsmonitor_changed := istate.fsmonitor_changed
        || decide (fsmonitor_force_update_threshold < paths.length)
      last_update := some new_token }
  else
    { istate with
      entries := istate.entries.map inval
      fsmonitor_changed := istate.fsmonitor_changed
        || istate.entries.any (fun e => e.valid)
      untracked := istate.untracked.map (fun _ => false)
      last_update := some new_token }

/-- The hook-mode body of `refresh_fsmonitor` (after the mode gate).
Besides the new state it returns the list of hook invocations
`(protocol version, token argument)` that were performed, in order.
With a stored token: try V2 when the configured version is unset or 2;
on success the first NUL-terminated field is the new token, and an
empty token field demotes the query to a failure; on failure with the
version unset, fall back to V1 (synthesizing a timestamp token).  With
no stored token: no query, and only a V1 configuration puts a
timestamp into the token. -/
def refresh_hook (env : RefreshEnv) (istate : IndexState) :
    IndexState × List (Nat × List Nat) :=
  let hv0 := fsmonitor_hook_version env.core_fsmonitorhookversion
  let lut0 : List Nat := if hv0 = 1 then decimalAscii env.now else []
  match istate.last_update with
  | none => (apply_results env.ignore_case istate false false [] lut0, [])
  | some t =>
      if hv0 = -1 ∨ hv0 = 2 then
        match query_fsmonitor_hook env 2 t with
        | some qr =>
            let lut := lut0 ++ qr.takeWhile (fun b => b != 0)
            if lut.length = 0 then
              (apply_results env.ignore_case istate false false [] lut,
               [(2, t)])
            else
              let bol := lut.length + 1
              (apply_results env.ignore_case istate true
                 (qr.getD bol 0 == 47) (qr.drop bol) lut,
               [(2, t)])
        | none =>
            if hv0 = -1 then
              let lut1 := if lut0.length = 0 then decimalAscii env.now else lut0
              match query_fsmonitor_hook env 1 t with
              | some qr1 =>
                  (apply_results env.ignore_case istate true
                     (qr1.getD 0 0 == 47) qr1 lut1,
                   [(2, t), (1, t)])
              | none =>
                  (apply_results env.ignore_case istate false false [] lut1,
                   [(2, t), (1, t)])
            else
              (apply_results env.ignore_case istate false false [] lut0,
               [(2, t)])
      else
        match query_fsmonitor_hook env 1 t with
        | some qr1 =>
            (apply_results env.ignore_case istate true (qr1.getD 0 0 == 47)
               qr1 lut0,
             [(1, t)])
        | none =>
            (apply_results env.ignore_case istate false false [] lut0,
             [(1, t)])

/-- `refresh_fsmonitor(istate)`, parameterized by the process
environment.  Returns the new index state and the log of hook
invocations.  The one-shot incompatibility warning and all tracing are
omitted (observational only). -/
def refresh_fsmonitor (env : RefreshEnv) (istate0 : IndexState) :
    IndexState × List (Nat × List Nat) :=
  if env.mode = FsmMode.disabled ∨ istate0.has_run_once then (istate0, [])
  else
    let istate := { istate0 with has_run_once := true }
    if env.mode = FsmMode.ipc then
      match env.ipc_response (istate.last_update.getD builtin_fake) with
      | some qr =>
          let tok := qr.takeWhile (fun b => b != 0)
          let bol := tok.length + 1
          (apply_results env.ignore_case istate true (qr.getD bol 0 == 47)
             (qr.drop bol) tok,
           [])
      | none =>
          (apply_results env.ignore_case istate false false [] builtin_fake,
           [])
    else refresh_hook env istate

/- ==================================================================
   Auxiliary definitions used by the statements below.
   ================================================================== -/

/-- The bit that `fill_fsmonitor_bitmap` records for position `j` of
the written (removal-filtered) entry sequence: set exactly when the
entry exists and is not valid. -/
def dirty_bit (fes : List Entry) (j : Nat) : Bool :=
  match fes[j]? with
  | some e => !e.valid
  | none => false

/-- Does the bitmap parse performed by `read_ext_tail` on the buffer
`index2` (size word followed by bitmap bytes) fail to consume exactly
`ewah_size` bytes?  This is the `CorruptBitmap` condition. -/
def ewah_parse_bad (index2 : List Nat) : Bool :=
  match ewah_read_mmap (index2.drop 4) (get_be32 index2) with
  | some p => p.2 != get_be32 index2
  | none => true

/-- Convenience: an IPC-mode environment with a fixed oracle answer. -/
def ipc_env (resp : Option (List Nat)) : RefreshEnv :=
  ⟨FsmMode.ipc, none, 0, fun _ => resp, fun _ _ => none, false⟩

/-- Convenience: a hook-mode environment. -/
def hook_env (cfg : Option Int) (now : Nat)
    (h : Nat → List Nat → Option (List Nat)) : RefreshEnv :=
  ⟨FsmMode.hook, cfg, now, fun _ => none, h, false⟩

/-- A one-entry index (path `"a"`, valid, token `"t"`, untracked cache
present) used by several concrete scenarios. -/
def st_one_valid : IndexState :=
  ⟨[⟨[97], true, false, false⟩], some [116], false, false, some true⟩

/-- An empty index with a stored token. -/
def st_empty : IndexState :=
  ⟨[], some [116], false, false, none⟩

/-- An IPC response carrying token `"t"` and 101 records `"a"`. -/
def response_101 : List Nat :=
  [116, 0] ++ (List.replicate 101 [97, 0]).flatten

/-- Hook-mode environment whose V2 hook answers with an empty token
field (then the record `"a"`), and whose V1 hook would answer with the
record `"b"`. -/
def c5_env : RefreshEnv :=
  hook_env none 7 (fun v _ => if v = 2 then some [0, 97, 0] else some [98, 0])

/-- Hook-mode environment (hook version unset) whose hook always
fails; used with an index that has no stored token, where the hook is
never run at all. -/
def c4_env : RefreshEnv :=
  hook_env none 5 (fun _ _ => none)

/-- A one-entry index with no stored token. -/
def c4_st : IndexState :=
  ⟨[⟨[97], true, false, false⟩], none, false, false, some true⟩

/-- An index that is NOT sorted by path (`"zzz"` before `"src/a"`):
the reported name `"src"` then reaches the byte-match guard of
`my_callback_dir_name_hash`. -/
def c6_es : List Entry :=
  [⟨[122, 122, 122], true, false, false⟩,
   ⟨[115, 114, 99, 47, 97], true, false, false⟩]

/-- The reported pathname `"src"`. -/
def c6_name : List Nat := [115, 114, 99]

/-- Scenario entries `["src/a", "src/b", "srcfoo"]`, all valid. -/
def es_cone : List Entry :=
  [⟨[115, 114, 99, 47, 97], true, false, false⟩,
   ⟨[115, 114, 99, 47, 98], true, false, false⟩,
   ⟨[115, 114, 99, 102, 111, 111], true, false, false⟩]

/-- The single entry `"Src/A"`, valid. -/
def es_icase : List Entry :=
  [⟨[83, 114, 99, 47, 65], true, false, false⟩]

/- ==================================================================
   Theorems.  Helper lemmas first, then one theorem per claim (plus
   witnesses and counterexamples).
   ================================================================== -/

theorem starts_with_not_lexLt (p : List Nat) :
    ∀ s : List Nat, starts_with s p = true → lexLt s p = false := by
  induction p with
  | nil => intro s _; cases s <;> simp [lexLt]
  | cons b bs ih =>
    intro s h
    cases s with
    | nil => simp [starts_with] at h
    | cons a as =>
      simp only [starts_with, Bool.and_eq_true, beq_iff_eq] at h
      obtain ⟨rfl, h2⟩ := h
      simp [lexLt, ih as h2]

theorem lexLt_irrefl (a : List Nat) : lexLt a a = false := by
  induction a with
  | nil => rfl
  | cons x xs ih => simp [lexLt, ih]

theorem lexLt_trans (a : List Nat) :
    ∀ b c : List Nat, lexLt a b = true → lexLt b c = true → lexLt a c = true := by
  induction a with
  | nil =>
    intro b c hab hbc
    cases b with
    | nil => simp [lexLt] at hab
    | cons y ys =>
      cases c with
      | nil => simp [lexLt] at hbc
      | cons z zs => simp [lexLt]
  | cons x xs ih =>
    intro b c hab hbc
    cases b with
    | nil => simp [lexLt] at hab
    | cons y ys =>
      cases c with
      | nil => simp [lexLt] at hbc
      | cons z zs =>
        simp only [lexLt, Bool.or_eq_true, Bool.and_eq_true, beq_iff_eq,
          decide_eq_true_eq] at hab hbc ⊢
        rcases hab with h1 | ⟨rfl, h1⟩ <;> rcases hbc with h2 | ⟨rfl, h2⟩
        · exact Or.inl (Nat.lt_trans h1 h2)
        · exact Or.inl h1
        · exact Or.inl h2
        · exact Or.inr ⟨rfl, ih ys zs h1 h2⟩

theorem starts_with_upward (p : List Nat) :
    ∀ s t : List Nat, lexLt s p = false → starts_with s p = false →
      lexLt s t = true → starts_with t p = false := by
  induction p with
  | nil => intro s t _ h2 _; cases s <;> simp [starts_with] at h2
  | cons x ps ih =>
    intro s t h1 h2 h3
    cases s with
    | nil => simp [lexLt] at h1
    | cons y ss =>
      cases t with
      | nil => rfl
      | cons z ts =>
        simp only [lexLt, Bool.or_eq_false_iff, Bool.and_eq_false_iff,
          decide_eq_false_iff_not, beq_eq_false_iff_ne, ne_eq] at h1
        simp only [starts_with, Bool.and_eq_false_iff, beq_eq_false_iff_ne,
          ne_eq] at h2
        simp only [lexLt, Bool.or_eq_true, Bool.and_eq_true, beq_iff_eq,
          decide_eq_true_eq] at h3
        simp only [starts_with, Bool.and_eq_false_iff, beq_eq_false_iff_ne,
          ne_eq]
        by_cases hzx : z = x
        · subst hzx
          rcases h3 with h3 | ⟨rfl, h3⟩
          · exact absurd h3 h1.1
          · have hsp : lexLt ss ps = false := by
              rcases h1.2 with h | h
              · exact absurd rfl h
              · exact h
            have hswp : starts_with ss ps = false := by
              rcases h2 with h | h
              · exact absurd rfl h
              · exact h
            exact Or.inr (ih ss ts hsp hswp h3)
        · exact Or.inl hzx

theorem mem_take_findIdx {α : Type} (p : α → Bool) (l : List α) :
    ∀ x ∈ l.take (l.findIdx p), p x = false := by
  induction l with
  | nil => simp
  | cons a l ih =>
    intro x hx
    rw [List.findIdx_cons] at hx
    cases ha : p a with
    | true => simp [ha] at hx
    | false =>
      rw [ha] at hx
      simp only [cond_false, List.take_succ_cons, List.mem_cons] at hx
      rcases hx with rfl | hx
      · exact ha
      · exact ih x hx

theorem pred_drop_head {α : Type} (p : α → Bool) (l : List α) :
    ∀ x t, l.drop (l.findIdx p) = x :: t → p x = true := by
  induction l with
  | nil => simp
  | cons a l ih =>
    intro x t h
    rw [List.findIdx_cons] at h
    cases ha : p a with
    | true =>
      rw [ha] at h
      simp only [cond_true, List.drop_zero] at h
      cases h
      exact ha
    | false =>
      rw [ha] at h
      simp only [cond_false, List.drop_succ_cons] at h
      exact ih x t h

theorem noscan_all (name : List Nat) (xs : List Entry)
    (h : ∀ e ∈ xs, starts_with e.name name = false) :
    xs.map (fun e => if starts_with e.name name then inval e else e) = xs
    ∧ xs.countP (fun e => starts_with e.name name) = 0 := by
  constructor
  · have hxe : xs.map (fun e => if starts_with e.name name then inval e else e)
        = xs.map id :=
      List.map_congr_left (fun e he => by simp [h e he])
    rw [hxe, List.map_id]
  · exact List.countP_eq_zero.mpr (fun e he => by simp [h e he])

theorem scan_all (name : List Nat) (xs : List Entry)
    (hsort : xs.Pairwise (fun a b => lexLt a.name b.name = true))
    (hge : ∀ e ∈ xs, lexLt e.name name = false) :
    (xs.takeWhile (fun e => starts_with e.name name)).map inval
        ++ xs.dropWhile (fun e => starts_with e.name name)
      = xs.map (fun e => if starts_with e.name name then inval e else e)
    ∧ (xs.takeWhile (fun e => starts_with e.name name)).length
      = xs.countP (fun e => starts_with e.name name) := by
  induction xs with
  | nil => simp
  | cons x t ih =>
    rw [List.pairwise_cons] at hsort
    cases hx : starts_with x.name name with
    | true =>
      have iht := ih hsort.2 (fun e he => hge e (List.mem_cons_of_mem x he))
      simp only [List.takeWhile_cons, List.dropWhile_cons, hx, if_pos,
        List.map_cons, List.cons_append, List.countP_cons, List.length_cons]
      refine ⟨by rw [iht.1], ?_⟩
      simp [hx, iht.2]
    | false =>
      have hall : ∀ e ∈ x :: t, starts_with e.name name = false := by
        intro e he
        rcases List.mem_cons.mp he with rfl | he
        · exact hx
        · exact starts_with_upward name x.name e.name
            (hge x (List.mem_cons_self x t)) hx (hsort.1 e he)
      have hns := noscan_all name (x :: t) hall
      simp only [List.takeWhile_cons, List.dropWhile_cons, hx]
      simp only [Bool.false_eq_true, if_false, List.map_nil, List.nil_append,
        List.length_nil]
      exact ⟨hns.1.symm, hns.2.symm⟩

theorem scan_start_eq (es : List Entry) (name : List Nat) :
    (if index_name_pos es name < 0 then (-(index_name_pos es name) - 1).toNat
     else (index_name_pos es name).toNat)
      = es.findIdx (fun e => !lexLt e.name name) := by
  have hle : es.findIdx (fun e => !lexLt e.name name) ≤ es.length :=
    List.findIdx_le_length _
  unfold index_name_pos
  cases h : es[es.findIdx (fun e => !lexLt e.name name)]? with
  | some e =>
    by_cases he : e.name = name
    · simp only [h, if_pos he]
      rw [if_neg (by omega)]
      omega
    · simp only [h, if_neg he]
      rw [if_pos (by omega)]
      omega
  | none =>
    have h1 : es.length ≤ es.findIdx (fun e => !lexLt e.name name) :=
      List.getElem?_eq_none_iff.mp h
    simp only [h]
    rw [if_pos (by omega)]
    omega

theorem slash_scan_exact (es : List Entry) (name : List Nat)
    (hsort : es.Pairwise (fun a b => lexLt a.name b.name = true)) :
    fsmonitor_refresh_callback_slash es name (index_name_pos es name)
      = (es.map (fun e => if starts_with e.name name then inval e else e),
         es.countP (fun e => starts_with e.name name)) := by
  unfold fsmonitor_refresh_callback_slash
  rw [scan_start_eq]
  have hdge : ∀ e ∈ es.drop (es.findIdx (fun e => !lexLt e.name name)),
      lexLt e.name name = false := by
    cases hdrop : es.drop (es.findIdx (fun e => !lexLt e.name name)) with
    | nil => simp
    | cons hd tl =>
      have hhd : lexLt hd.name name = false := by
        have := pred_drop_head (fun e => !lexLt e.name name) es hd tl hdrop
        simpa using this
      intro e he
      rcases List.mem_cons.mp he with rfl | he
      · exact hhd
      · have hsd : (hd :: tl).Pairwise
            (fun a b => lexLt a.name b.name = true) := by
          rw [← hdrop]
          exact hsort.sublist (List.drop_sublist _ _)
        have hlt := (List.pairwise_cons.mp hsd).1 e he
        rcases Bool.eq_false_or_eq_true (lexLt e.name name) with h | h
        · exact absurd (lexLt_trans hd.name e.name name hlt h) (by simp [hhd])
        · exact h
  have hscan := scan_all name
    (es.drop (es.findIdx (fun e => !lexLt e.name name)))
    (hsort.sublist (List.drop_sublist _ _)) hdge
  have htke : ∀ e ∈ es.take (es.findIdx (fun e => !lexLt e.name name)),
      starts_with e.name name = false := by
    intro e he
    have := mem_take_findIdx (fun e => !lexLt e.name name) es e he
    have hlt : lexLt e.name name = true := by simpa using this
    rcases Bool.eq_false_or_eq_true (starts_with e.name name) with h | h
    · exact absurd (starts_with_not_lexLt name e.name h) (by simp [hlt])
    · exact h
  have hns := noscan_all name
    (es.take (es.findIdx (fun e => !lexLt e.name name))) htke
  have hsplit := List.take_append_drop
    (es.findIdx (fun e => !lexLt e.name name)) es
  refine Prod.ext ?_ ?_
  · show es.take _ ++ _ ++ _ = _
    conv_rhs => rw [← hsplit]
    rw [List.map_append, hns.1, List.append_assoc, hscan.1]
  · show (List.takeWhile _ _).length = _
    conv_rhs => rw [← hsplit]
    rw [List.countP_append, hns.2, hscan.2, Nat.zero_add]

/-- C7: for every slash-terminated reported path `p` on a sorted
index, the directory-cone invalidation started at the insertion point
returned by `index_name_pos` clears `CLEAN` on exactly the entries
whose path has `p` as a byte prefix (an entry that merely shares the
bytes of `p` without the slash, such as `"srcfoo"` for `"src/"`, is
left untouched), and the returned in-cone count is the number of
entries in that cone. -/
theorem slash_cone_invalidates_exactly_cone (es : List Entry)
    (name : List Nat)
    (hsort : es.Pairwise (fun a b => lexLt a.name b.name = true))
    (_hslash : name.getD (name.length - 1) 0 = 47) :
    fsmonitor_refresh_callback_slash es name (index_name_pos es name)
      = (es.map (fun e => if starts_with e.name name then inval e else e),
         es.countP (fun e => starts_with e.name name)) :=
  slash_scan_exact es name hsort

/-- Witness for C7: the spec scenario `["src/a", "src/b", "srcfoo"]`
with reported path `"src/"`; the first two entries are the cone. -/
theorem slash_cone_invalidates_exactly_cone_witness :
    es_cone.Pairwise (fun a b => lexLt a.name b.name = true)
    ∧ [115, 114, 99, 47].getD ([115, 114, 99, 47].length - 1) 0 = 47
    ∧ fsmonitor_refresh_callback_slash es_cone [115, 114, 99, 47]
        (index_name_pos es_cone [115, 114, 99, 47])
      = (es_cone.map
           (fun e => if starts_with e.name [115, 114, 99, 47] then inval e else e),
         es_cone.countP (fun e => starts_with e.name [115, 114, 99, 47])) :=
  ⟨by decide, by decide,
   slash_cone_invalidates_exactly_cone es_cone [115, 114, 99, 47]
     (by decide) (by decide)⟩

/-- C6 (amended): on a case-insensitive filesystem, when the exact and
synthesized-slash attempts found nothing and the case-folded file
lookup misses, and the case-folded directory lookup returns a
canonical spelling that does NOT byte-match the observed name, the
invalidator appends a slash to the canonical spelling and reruns the
cone scan, clearing `CLEAN` on exactly the canonical cone (given a
sorted index).  When the canonical spelling byte-matches the observed
name the code instead returns 0 without scanning ("should not
happen"), which is what the counterexample exhibits. -/
theorem icase_dir_rescan_when_spelling_differs (es : List Entry)
    (name c : List Nat)
    (hsort : es.Pairwise (fun a b => lexLt a.name b.name = true))
    (hf : index_file_exists es name = none)
    (hd : index_dir_exists2 es name = some c)
    (hne : c ≠ name) :
    fsmonitor_refresh_callback_unqualified_icase es name
      = (es.map (fun e => if starts_with e.name (c ++ [47]) then inval e else e),
         es.countP (fun e => starts_with e.name (c ++ [47]))) := by
  have h1 : fsmonitor_refresh_callback_unqualified_icase es name
      = my_callback_dir_name_hash es name := by
    unfold fsmonitor_refresh_callback_unqualified_icase my_callback_name_hash
    rw [hf]
    rfl
  rw [h1]
  unfold my_callback_dir_name_hash
  simp only [hd]
  rw [if_neg hne]
  exact slash_scan_exact es (c ++ [47]) hsort

/-- Counterexample to C6 as stated: a concrete state in which every
hypothesis of the claim holds — the exact attempt and the slash cone
scan invalidate zero entries, the case-folded file lookup finds
nothing, and the case-folded directory lookup returns a canonical
spelling (here byte-identical to the observed name `"src"`) — yet the
invalidator clears nothing: the entry `"src/a"`, which lies inside the
canonical cone, keeps `CLEAN`, because `my_callback_dir_name_hash`
returns 0 on the byte-match ("should not happen") branch instead of
rerunning the cone scan. -/
theorem icase_dir_byte_match_counterexample :
    fsmonitor_refresh_callback_unqualified c6_es c6_name
        (index_name_pos c6_es c6_name) = (c6_es, 0)
    ∧ my_callback_name_hash c6_es c6_name = (c6_es, 0)
    ∧ index_dir_exists2 c6_es c6_name = some c6_name
    ∧ fsmonitor_refresh_callback_unqualified_icase c6_es c6_name = (c6_es, 0)
    ∧ ∃ e ∈ c6_es, starts_with e.name (c6_name ++ [47]) = true
        ∧ e.valid = true := by decide

/-- Witness for the amended C6: the spec scenario with entry
`"Src/A"` and reported name `"src"`; the canonical spelling `"Src"`
differs from the observed one and the cone is rescanned. -/
theorem icase_dir_rescan_when_spelling_differs_witness :
    es_icase.Pairwise (fun a b => lexLt a.name b.name = true)
    ∧ index_file_exists es_icase [115, 114, 99] = none
    ∧ index_dir_exists2 es_icase [115, 114, 99] = some [83, 114, 99]
    ∧ [83, 114, 99] ≠ [115, 114, 99]
    ∧ fsmonitor_refresh_callback_unqualified_icase es_icase [115, 114, 99]
      = (es_icase.map
           (fun e => if starts_with e.name ([83, 114, 99] ++ [47]) then inval e
                     else e),
         es_icase.countP
           (fun e => starts_with e.name ([83, 114, 99] ++ [47]))) :=
  ⟨by decide, by decide, by decide, by decide,
   icase_dir_rescan_when_spelling_differs es_icase [115, 114, 99] [83, 114, 99]
     (by decide) (by decide) (by decide) (by decide)⟩

theorem split_loop_spec (p : List Nat) :
    ∀ acc : List Nat,
      split_loop p acc
        = match split_records_spec p with
          | [] => if acc.isEmpty then [] else [acc]
          | s :: ss => (acc ++ s) :: ss := by
  induction p with
  | nil => intro acc; rfl
  | cons b rest ih =>
    intro acc
    rcases b with _ | b
    · have h0 : split_loop rest [] = split_records_spec rest := by
        rw [ih]
        cases h : split_records_spec rest with
        | nil => rfl
        | cons s ss => simp
      show acc :: split_loop rest [] = _
      rw [h0]
      simp only [split_records_spec]
      cases h : split_records_spec rest with
      | nil => simp [h]
      | cons s ss => simp [h]
    · show split_loop rest (acc ++ [b + 1]) = _
      rw [ih]
      simp only [split_records_spec]
      cases h : split_records_spec rest with
      | nil => simp
      | cons s ss => simp

/-- C9 (amended): the refresh driver splits the payload at every NUL
and hands every record to the path invalidator, including empty
records produced by consecutive NULs; only a trailing empty record
(after a final NUL, or from an empty payload) is not handed over.  For
an empty record the invalidator reads `name[len - 1]` before the
buffer (undefined behavior in C; the model reads 0). -/
theorem payload_paths_split (payload : List Nat) :
    fsmonitor_payload_paths payload = split_records_spec payload := by
  unfold fsmonitor_payload_paths
  rw [split_loop_spec]
  cases h : split_records_spec payload with
  | nil => rfl
  | cons s ss => simp

/-- Counterexample to C9 as stated: the payload `"a\x00\x00b"` has
consecutive NULs; the driver hands the empty record between them to
the invalidator, so it is not true that only non-empty records are
passed. -/
theorem payload_empty_record_counterexample :
    fsmonitor_payload_paths [97, 0, 0, 98] = [[97], [], [98]]
    ∧ [] ∈ fsmonitor_payload_paths [97, 0, 0, 98] := by decide

theorem dirty_bit_cons_zero (e : Entry) (l : List Entry) :
    dirty_bit (e :: l) 0 = !e.valid := by simp [dirty_bit]

theorem dirty_bit_cons_succ (e : Entry) (l : List Entry) (m : Nat) :
    dirty_bit (e :: l) (m + 1) = dirty_bit l m := by simp [dirty_bit]

theorem ewah_set_getD : ∀ (bm : List Bool) (k j : Nat),
    (ewah_set bm k).getD j false = (bm.getD j false || j == k)
  | [], 0, 0 => by simp [ewah_set]
  | [], 0, j + 1 => by simp [ewah_set]
  | [], k + 1, 0 => by simp [ewah_set]
  | [], k + 1, j + 1 => by
      have h := ewah_set_getD [] k j
      simp only [ewah_set, List.getD_cons_succ, h]
      simp [Nat.succ_inj']
  | b :: bs, 0, 0 => by simp [ewah_set]
  | b :: bs, 0, j + 1 => by simp [ewah_set]
  | b :: bs, k + 1, 0 => by simp [ewah_set]
  | b :: bs, k + 1, j + 1 => by
      have h := ewah_set_getD bs k j
      simp only [ewah_set, List.getD_cons_succ, h]
      simp [Nat.succ_inj']

theorem fill_loop_getD (es : List Entry) :
    ∀ (i skipped : Nat) (bm : List Bool) (j : Nat), skipped ≤ i →
      (fill_loop es i skipped bm).getD j false
        = (bm.getD j false
           || (decide (i - skipped ≤ j)
               && dirty_bit (es.filter (fun e => !e.remove))
                    (j - (i - skipped)))) := by
  induction es with
  | nil => intro i skipped bm j h; simp [fill_loop, dirty_bit]
  | cons e rest ih =>
    intro i skipped bm j h
    by_cases hr : e.remove = true
    · have : fill_loop (e :: rest) i skipped bm
          = fill_loop rest (i + 1) (skipped + 1) bm := by
        simp [fill_loop, hr]
      rw [this, ih (i + 1) (skipped + 1) bm j (by omega)]
      have hB : i + 1 - (skipped + 1) = i - skipped := by omega
      rw [hB]
      simp [List.filter_cons, hr]
    · have hrf : e.remove = false := by
        rcases Bool.eq_false_or_eq_true e.remove with h | h
        · exact absurd h hr
        · exact h
      have hfil : (e :: rest).filter (fun e => !e.remove)
          = e :: rest.filter (fun e => !e.remove) := by
        simp [List.filter_cons, hrf]
      have hB1 : i + 1 - skipped = (i - skipped) + 1 := by omega
      by_cases hv : e.valid = true
      · have : fill_loop (e :: rest) i skipped bm
            = fill_loop rest (i + 1) skipped bm := by
          simp [fill_loop, hrf, hv]
        rw [this, ih (i + 1) skipped bm j (by omega), hB1, hfil]
        rcases Nat.lt_trichotomy j (i - skipped) with hj | hj | hj
        · have d1 : decide (i - skipped + 1 ≤ j) = false := by
            simp; omega
          have d2 : decide (i - skipped ≤ j) = false := by
            simp; omega
          rw [d1, d2]
          simp
        · have d1 : decide (i - skipped + 1 ≤ j) = false := by
            simp; omega
          have d2 : decide (i - skipped ≤ j) = true := by
            simp; omega
          have hs : j - (i - skipped) = 0 := by omega
          rw [d1, d2, hs, dirty_bit_cons_zero, hv]
          simp
        · have d1 : decide (i - skipped + 1 ≤ j) = true := by
            simp; omega
          have d2 : decide (i - skipped ≤ j) = true := by
            simp; omega
          have hs : j - (i - skipped) = (j - (i - skipped + 1)) + 1 := by omega
          rw [d1, d2, hs, dirty_bit_cons_succ]
      · have hvf : e.valid = false := by
          rcases Bool.eq_false_or_eq_true e.valid with h | h
          · exact absurd h hv
          · exact h
        have : fill_loop (e :: rest) i skipped bm
            = fill_loop rest (i + 1) skipped (ewah_set bm (i - skipped)) := by
          simp [fill_loop, hrf, hvf]
        rw [this, ih (i + 1) skipped _ j (by omega), hB1, hfil,
          ewah_set_getD]
        rcases Nat.lt_trichotomy j (i - skipped) with hj | hj | hj
        · have d1 : decide (i - skipped + 1 ≤ j) = false := by
            simp; omega
          have d2 : decide (i - skipped ≤ j) = false := by
            simp; omega
          have d3 : (j == i - skipped) = false := by
            simp; omega
          rw [d1, d2, d3]
          simp
        · have d2 : decide (i - skipped ≤ j) = true := by
            simp; omega
          have d3 : (j == i - skipped) = true := by
            simp; omega
          have hs : j - (i - skipped) = 0 := by omega
          rw [d2, d3, hs, dirty_bit_cons_zero, hvf]
          simp
        · have d1 : decide (i - skipped + 1 ≤ j) = true := by
            simp; omega
          have d2 : decide (i - skipped ≤ j) = true := by
            simp; omega
          have d3 : (j == i - skipped) = false := by
            simp; omega
          have hs : j - (i - skipped) = (j - (i - skipped + 1)) + 1 := by omega
          rw [d1, d2, d3, hs, dirty_bit_cons_succ]
          simp [Bool.or_assoc]

theorem fill_getD (es : List Entry) (j : Nat) :
    (fill_fsmonitor_bitmap es).getD j false
      = dirty_bit (es.filter (fun e => !e.remove)) j := by
  have h := fill_loop_getD es 0 0 [] j (Nat.le_refl 0)
  simpa [fill_fsmonitor_bitmap] using h

theorem ewah_each_bit_clear_getElem : ∀ (es : List Entry) (bm : List Bool)
    (j : Nat), (ewah_each_bit_clear es bm)[j]?
      = (es[j]?).map (fun e => if bm.getD j false then inval e else e)
  | [], bm, j => by cases bm <;> simp [ewah_each_bit_clear]
  | e :: es, [], j => by
      simp only [ewah_each_bit_clear, List.getD]
      cases h : (e :: es)[j]? <;> simp [h]
  | e :: es, b :: bs, 0 => by simp [ewah_each_bit_clear]
  | e :: es, b :: bs, j + 1 => by
      have h := ewah_each_bit_clear_getElem es bs j
      simp [ewah_each_bit_clear, List.getD_cons_succ, h]

/-- C8: building the dirty bitmap with `fill_fsmonitor_bitmap`
(positions assigned in entry order, entries flagged `CE_REMOVE`
skipped, a bit set exactly for each non-skipped entry whose `CLEAN`
bit is unset) and then applying it with the load-time half of
`tweak_fsmonitor` (set `CLEAN` on every non-gitlink entry, then clear
`CLEAN` at each set bit) restores every non-submodule entry of the
written (removal-filtered) index unchanged. -/
theorem bitmap_roundtrip_clean (es : List Entry) (j : Nat) (e : Entry)
    (hj : (es.filter (fun e => !e.remove))[j]? = some e)
    (hg : e.gitlink = false) :
    (tweak_fsmonitor_apply (es.filter (fun e => !e.remove))
        (fill_fsmonitor_bitmap es))[j]? = some e := by
  unfold tweak_fsmonitor_apply
  rw [ewah_each_bit_clear_getElem, List.getElem?_map, hj, fill_getD,
    dirty_bit, hj]
  obtain ⟨n, v, g, r⟩ := e
  simp only at hg
  subst hg
  cases v <;> simp [inval]

/-- Witness for C8: a one-entry index whose entry is dirty (no `CLEAN`
bit); the bitmap records it and applying restores it exactly. -/
theorem bitmap_roundtrip_clean_witness :
    ([⟨[97], false, false, false⟩] :
        List Entry).filter (fun e => !e.remove) = [⟨[97], false, false, false⟩]
    ∧ (Entry.gitlink ⟨[97], false, false, false⟩) = false
    ∧ (tweak_fsmonitor_apply
        (([⟨[97], false, false, false⟩] :
            List Entry).filter (fun e => !e.remove))
        (fill_fsmonitor_bitmap [⟨[97], false, false, false⟩]))[0]?
      = some ⟨[97], false, false, false⟩ :=
  ⟨by decide, by decide,
   bitmap_roundtrip_clean [⟨[97], false, false, false⟩] 0
     ⟨[97], false, false, false⟩ (by decide) (by decide)⟩

theorem get_be32_cons (a b c d : Nat) (r : List Nat) :
    get_be32 (a :: b :: c :: d :: r) = a * 2 ^ 24 + b * 2 ^ 16 + c * 2 ^ 8 + d := by
  simp [get_be32, List.getD]

theorem get_put_be32 (v : Nat) (r : List Nat) (h : v < 2 ^ 32) :
    get_be32 (put_be32 v ++ r) = v := by
  simp only [put_be32, List.cons_append, List.nil_append, get_be32_cons]
  omega

theorem takeWhile_nul (t r : List Nat) (h : ∀ b ∈ t, b ≠ 0) :
    (t ++ 0 :: r).takeWhile (fun b => b != 0) = t := by
  induction t with
  | nil => simp [List.takeWhile_cons]
  | cons a t ih =>
    have ha : (a != 0) = true := by
      simp [h a (List.mem_cons_self a t)]
    simp only [List.cons_append, List.takeWhile_cons, ha, if_pos]
    rw [ih (fun b hb => h b (List.mem_cons_of_mem a hb))]

theorem drop_after_nul (t r : List Nat) :
    (t ++ 0 :: r).drop (t.length + 1) = r := by
  rw [show t ++ 0 :: r = (t ++ [0]) ++ r by simp,
    show t.length + 1 = (t ++ [0]).length by simp]
  exact List.drop_left _ _

theorem write_fsmonitor_extension_eq (tok : List Nat) (bm : List Bool) :
    write_fsmonitor_extension tok bm
      = put_be32 2
          ++ (tok ++ (0 :: (put_be32 (ewah_serialize bm).length
                             ++ ewah_serialize bm))) := by
  unfold write_fsmonitor_extension
  have h1 : ((put_be32 2 ++ tok ++ [0]) ++ put_be32 0
        ++ ewah_serialize bm).take (put_be32 2 ++ tok ++ [0]).length
      = put_be32 2 ++ tok ++ [0] := by
    rw [List.append_assoc (put_be32 2 ++ tok ++ [0])]
    exact List.take_left _ _
  have hl1 : (put_be32 2 ++ tok ++ [0]).length + 4
      = ((put_be32 2 ++ tok ++ [0]) ++ put_be32 0).length := by
    simp [put_be32]
  have h2 : ((put_be32 2 ++ tok ++ [0]) ++ put_be32 0
        ++ ewah_serialize bm).drop ((put_be32 2 ++ tok ++ [0]).length + 4)
      = ewah_serialize bm := by
    rw [hl1]
    exact List.drop_left _ _
  have h3 : ((put_be32 2 ++ tok ++ [0]) ++ put_be32 0
        ++ ewah_serialize bm).length
      - ((put_be32 2 ++ tok ++ [0]) ++ put_be32 0).length
      = (ewah_serialize bm).length := by
    simp
    omega
  simp only [h1, h2, h3]
  simp [List.append_assoc]

theorem decode_encode (bm : List Bool) :
    (bm.map (fun b => if b then (1 : Nat) else 0)).map (fun x => x != 0) = bm := by
  induction bm with
  | nil => rfl
  | cons b t ih => cases b <;> simp [ih]

theorem length_ewah_serialize (bm : List Bool) :
    (ewah_serialize bm).length = 4 + bm.length := by
  simp [ewah_serialize, put_be32]
  omega

theorem ewah_read_mmap_serialize (bm : List Bool) (h : bm.length ≤ 100000) :
    ewah_read_mmap (ewah_serialize bm) (ewah_serialize bm).length
      = some (bm, 4 + bm.length) := by
  have hS := length_ewah_serialize bm
  unfold ewah_read_mmap
  rw [if_neg (by omega)]
  have hg : get_be32 (ewah_serialize bm) = bm.length := by
    unfold ewah_serialize
    exact get_put_be32 _ _ (by omega)
  rw [hg, if_pos ⟨by omega, by omega⟩]
  have hd : (ewah_serialize bm).drop 4 = bm.map (fun b => if b then 1 else 0) := by
    unfold ewah_serialize
    rw [show (4 : Nat) = (put_be32 bm.length).length from rfl]
    exact List.drop_left _ _
  rw [hd]
  have ht : (bm.map (fun b => if b then (1 : Nat) else 0)).take bm.length
      = bm.map (fun b => if b then (1 : Nat) else 0) := by
    rw [show bm.length = (bm.map (fun b => if b then (1 : Nat) else 0)).length from
      (List.length_map _ _).symm]
    exact List.take_length _
  rw [ht, decode_encode]

theorem read_ext_tail_good (st : ExtState) (tok : List Nat) (bm : List Bool)
    (h : bm.length ≤ 100000) :
    read_ext_tail st tok
        (put_be32 (ewah_serialize bm).length ++ ewah_serialize bm)
      = ({ st with last_update := some tok, fsmonitor_dirty := some bm },
         Except.ok ()) := by
  have hS := length_ewah_serialize bm
  rw [hS]
  have h1 : get_be32 (put_be32 (4 + bm.length) ++ ewah_serialize bm)
      = 4 + bm.length := get_put_be32 _ _ (by omega)
  have h2 : (put_be32 (4 + bm.length) ++ ewah_serialize bm).drop 4
      = ewah_serialize bm := by
    rw [show (4 : Nat) = (put_be32 (4 + bm.length)).length from rfl]
    exact List.drop_left _ _
  have hm := ewah_read_mmap_serialize bm h
  rw [hS] at hm
  simp [read_ext_tail, h1, h2, hm]

/-- C1: writing the extension with `write_fsmonitor_extension` (always
version 2: version word, token bytes, a NUL, a back-patched 4-byte
big-endian bitmap length, then the serialized bitmap) and then parsing
the produced bytes with `read_fsmonitor_extension` succeeds and yields
back exactly the same token and the same bitmap, for every non-empty
NUL-free token and every bitmap of at most 100000 bits. -/
theorem ext_write_read_roundtrip (st : ExtState) (tok : List Nat)
    (bm : List Bool) (_hne : tok ≠ []) (hnul : ∀ b ∈ tok, b ≠ 0)
    (hlen : bm.length ≤ 100000) :
    read_fsmonitor_extension st (write_fsmonitor_extension tok bm)
      = ({ st with last_update := some tok, fsmonitor_dirty := some bm },
         Except.ok ()) := by
  rw [write_fsmonitor_extension_eq]
  have hS := length_ewah_serialize bm
  have hlen9 : 9 ≤ (put_be32 2
      ++ (tok ++ (0 :: (put_be32 (ewah_serialize bm).length
                         ++ ewah_serialize bm)))).length := by
    simp [put_be32]
    omega
  unfold read_fsmonitor_extension
  rw [if_neg (by omega)]
  have hhdr : get_be32 (put_be32 2
      ++ (tok ++ (0 :: (put_be32 (ewah_serialize bm).length
                         ++ ewah_serialize bm)))) = 2 :=
    get_put_be32 _ _ (by omega)
  have hdrop : (put_be32 2
      ++ (tok ++ (0 :: (put_be32 (ewah_serialize bm).length
                         ++ ewah_serialize bm)))).drop 4
      = tok ++ (0 :: (put_be32 (ewah_serialize bm).length
                       ++ ewah_serialize bm)) := by
    rw [show (4 : Nat) = (put_be32 2).length from rfl]
    exact List.drop_left _ _
  simp only [hhdr, hdrop]
  rw [if_pos trivial]
  rw [takeWhile_nul _ _ hnul, drop_after_nul]
  exact read_ext_tail_good st tok bm (by omega)

/-- Witness for C1: token `"t"` and the two-bit bitmap `[true, false]`
round-trip through the codec. -/
theorem ext_write_read_roundtrip_witness :
    ([116] : List Nat) ≠ []
    ∧ (∀ b ∈ ([116] : List Nat), b ≠ 0)
    ∧ ([true, false] : List Bool).length ≤ 100000
    ∧ read_fsmonitor_extension ⟨none, none⟩
        (write_fsmonitor_extension [116] [true, false])
      = (⟨some [116], some [true, false]⟩, Except.ok ()) :=
  ⟨by decide, by decide, by decide,
   ext_write_read_roundtrip ⟨none, none⟩ [116] [true, false]
     (by decide) (by decide) (by decide)⟩

theorem read_ext_tail_bad (st : ExtState) (tok index2 : List Nat)
    (h : ewah_parse_bad index2 = true) :
    read_ext_tail st tok index2
      = ({ st with last_update := some tok },
         Except.error ExtErr.CorruptBitmap) := by
  unfold ewah_parse_bad at h
  cases hm : ewah_read_mmap (index2.drop 4) (get_be32 index2) with
  | none => simp [read_ext_tail, hm]
  | some p =>
    rw [hm] at h
    simp only [bne_iff_ne, ne_eq] at h
    obtain ⟨bmv, c⟩ := p
    simp [read_ext_tail, hm, h]

/-- C10: extension parsing is not atomic on error.  When the input is
too short (`Corrupt`) or the version word is neither 1 nor 2
(`BadVersion`), the index state is returned completely unchanged; but
when the ewah bitmap fails to parse to exactly `ewah_size` bytes
(`CorruptBitmap`, for either version), the token field has already
been replaced with the token decoded from the header before the error
is returned (and the bitmap field is untouched). -/
theorem read_extension_error_atomicity (st : ExtState) (data : List Nat) :
    (data.length < 9 →
      read_fsmonitor_extension st data = (st, Except.error ExtErr.Corrupt))
    ∧ (9 ≤ data.length → get_be32 data ≠ 1 → get_be32 data ≠ 2 →
      read_fsmonitor_extension st data = (st, Except.error ExtErr.BadVersion))
    ∧ (9 ≤ data.length → get_be32 data = 2 →
      ewah_parse_bad ((data.drop 4).drop
          (((data.drop 4).takeWhile (fun b => b != 0)).length + 1)) = true →
      read_fsmonitor_extension st data
        = ({ st with
               last_update := some ((data.drop 4).takeWhile (fun b => b != 0)) },
           Except.error ExtErr.CorruptBitmap))
    ∧ (9 ≤ data.length → get_be32 data = 1 →
      ewah_parse_bad ((data.drop 4).drop 8) = true →
      read_fsmonitor_extension st data
        = ({ st with
               last_update := some (decimalAscii (get_be64 (data.drop 4))) },
           Except.error ExtErr.CorruptBitmap)) := by
  refine ⟨?_, ?_, ?_, ?_⟩
  · intro h
    unfold read_fsmonitor_extension
    rw [if_pos (by omega)]
  · intro h h1 h2
    unfold read_fsmonitor_extension
    rw [if_neg (by omega), if_neg h1, if_neg h2]
  · intro h h2 hbad
    unfold read_fsmonitor_extension
    rw [if_neg (by omega)]
    simp only [h2]
    rw [if_pos trivial]
    exact read_ext_tail_bad st _ _ hbad
  · intro h h1 hbad
    unfold read_fsmonitor_extension
    rw [if_neg (by omega)]
    simp only [h1]
    rw [if_pos trivial]
    exact read_ext_tail_bad st _ _ hbad

/-- Witness for C10: a version-2 header with token `"t"` whose
declared `ewah_size` (5) exceeds the remaining bytes (0), so the
bitmap parse fails; the previously stored token `"x"` has been
replaced by `"t"` while the stored bitmap is untouched. -/
theorem read_extension_error_atomicity_witness :
    9 ≤ (put_be32 2 ++ [116, 0] ++ put_be32 5).length
    ∧ get_be32 (put_be32 2 ++ [116, 0] ++ put_be32 5) = 2
    ∧ ewah_parse_bad (((put_be32 2 ++ [116, 0] ++ put_be32 5).drop 4).drop
        ((((put_be32 2 ++ [116, 0] ++ put_be32 5).drop 4).takeWhile
            (fun b => b != 0)).length + 1)) = true
    ∧ read_fsmonitor_extension ⟨some [120], some []⟩
        (put_be32 2 ++ [116, 0] ++ put_be32 5)
      = (⟨some [116], some []⟩, Except.error ExtErr.CorruptBitmap) :=
  ⟨by decide, by decide, by decide,
   (read_extension_error_atomicity ⟨some [120], some []⟩
       (put_be32 2 ++ [116, 0] ++ put_be32 5)).2.2.1
     (by decide) (by decide) (by decide)⟩

theorem getD_drop_zero (l : List Nat) (n : Nat) :
    (l.drop n).getD 0 0 = l.getD n 0 := by
  simp [List.getD, List.getElem?_drop]

/-- C2 (amended): for a refresh in which the IPC query succeeded and
the payload does not begin with `'/'` (the code tests only the first
payload byte), the driver sets `FSMONITOR_CHANGED` (beyond any prior
value of the bit) if and only if the number of NUL-delimited records
it handed to the path invalidator — not the number of entries those
records invalidated — exceeds the threshold 100. -/
theorem refresh_threshold_counts_paths (env : RefreshEnv) (st : IndexState)
    (qr : List Nat) (hm : env.mode = FsmMode.ipc)
    (hr : st.has_run_once = false)
    (hq : env.ipc_response (st.last_update.getD builtin_fake) = some qr)
    (ht : qr.getD ((qr.takeWhile (fun b => b != 0)).length + 1) 0 ≠ 47) :
    (refresh_fsmonitor env st).1.fsmonitor_changed
      = (st.fsmonitor_changed
         || decide (fsmonitor_force_update_threshold
              < (fsmonitor_payload_paths
                  (qr.drop ((qr.takeWhile
                      (fun b => b != 0)).length + 1))).length)) := by
  obtain ⟨es, lu, ro, fc, ut⟩ := st
  dsimp only at hr hq ⊢
  subst hr
  have hc : ¬ (qr[(qr.takeWhile (fun b => b != 0)).length + 1]?.getD 0 = 47) := by
    simpa [List.getD_eq_getElem?_getD] using ht
  simp [refresh_fsmonitor, hm, hq, apply_results, hc]

/-- Counterexample to C2 as stated: an empty index receiving 101
records.  No entry exists, so the sum over all reported paths of the
number of entries actually invalidated is 0, which does not exceed the
threshold; the claim therefore requires `FSMONITOR_CHANGED` to stay
clear, yet the code sets it, because it counts the 101 path records
rather than the 0 successful invalidations. -/
theorem refresh_threshold_sum_counterexample :
    (refresh_fsmonitor (ipc_env (some response_101)) st_empty).1.fsmonitor_changed
        = true
    ∧ (refresh_fsmonitor (ipc_env (some response_101)) st_empty).1.entries
        = [] := by decide

/-- Witness for the amended C2: a successful response with one record
(`"a"`) leaves the bit clear (1 record, below the threshold). -/
theorem refresh_threshold_counts_paths_witness :
    (ipc_env (some [116, 0, 97, 0])).mode = FsmMode.ipc
    ∧ st_empty.has_run_once = false
    ∧ (ipc_env (some [116, 0, 97, 0])).ipc_response
        (st_empty.last_update.getD builtin_fake) = some [116, 0, 97, 0]
    ∧ ([116, 0, 97, 0] : List Nat).getD
        ((([116, 0, 97, 0] : List Nat).takeWhile
            (fun b => b != 0)).length + 1) 0 ≠ 47
    ∧ (refresh_fsmonitor (ipc_env (some [116, 0, 97, 0])) st_empty).1.fsmonitor_changed
      = (st_empty.fsmonitor_changed
         || decide (fsmonitor_force_update_threshold
              < (fsmonitor_payload_paths
                  (([116, 0, 97, 0] : List Nat).drop
                    ((([116, 0, 97, 0] : List Nat).takeWhile
                        (fun b => b != 0)).length + 1))).length)) :=
  ⟨rfl, rfl, rfl, by decide,
   refresh_threshold_counts_paths (ipc_env (some [116, 0, 97, 0])) st_empty
     [116, 0, 97, 0] rfl rfl rfl (by decide)⟩

/-- C3: when refresh runs (IPC mode, first run, bit initially clear)
and the oracle query failed or returned the trivial payload `"/"`,
afterwards no entry has `CLEAN` set; `FSMONITOR_CHANGED` is set iff at
least one entry previously had `CLEAN` set; `use_fsmonitor` is forced
to false when an untracked cache is present; and on an empty index
`FSMONITOR_CHANGED` is not set. -/
theorem refresh_failed_or_trivial_clears_all (env : RefreshEnv)
    (st : IndexState) (hm : env.mode = FsmMode.ipc)
    (hr : st.has_run_once = false) (hc : st.fsmonitor_changed = false)
    (h : env.ipc_response (st.last_update.getD builtin_fake) = none
         ∨ ∃ qr, env.ipc_response (st.last_update.getD builtin_fake) = some qr
             ∧ qr.drop ((qr.takeWhile (fun b => b != 0)).length + 1) = [47]) :
    (∀ e ∈ (refresh_fsmonitor env st).1.entries, e.valid = false)
    ∧ ((refresh_fsmonitor env st).1.fsmonitor_changed = true
        ↔ ∃ e ∈ st.entries, e.valid = true)
    ∧ (refresh_fsmonitor env st).1.untracked = st.untracked.map (fun _ => false)
    ∧ (st.entries = [] →
        (refresh_fsmonitor env st).1.fsmonitor_changed = false) := by
  obtain ⟨es, lu, ro, fc, ut⟩ := st
  dsimp only at hr hc h ⊢
  subst hr
  subst hc
  have hbranch : (refresh_fsmonitor env ⟨es, lu, false, false, ut⟩).1
      = { entries := es.map inval,
          last_update := (refresh_fsmonitor env ⟨es, lu, false, false, ut⟩).1.last_update,
          has_run_once := true,
          fsmonitor_changed := es.any (fun e => e.valid),
          untracked := ut.map (fun _ => false) } := by
    rcases h with hq | ⟨qr, hq, hp⟩
    · simp [refresh_fsmonitor, hm, hq, apply_results]
    · have htriv : qr[(qr.takeWhile (fun b => b != 0)).length + 1]?.getD 0
          = 47 := by
        have h0 : qr.getD ((qr.takeWhile (fun b => b != 0)).length + 1) 0
            = 47 := by
          rw [← getD_drop_zero, hp]
          rfl
        simpa [List.getD_eq_getElem?_getD] using h0
      simp [refresh_fsmonitor, hm, hq, apply_results, htriv]
  rw [hbranch]
  refine ⟨?_, ?_, rfl, ?_⟩
  · intro e he
    simp only [List.mem_map] at he
    obtain ⟨x, _, rfl⟩ := he
    rfl
  · simp [List.any_eq_true]
  · intro he
    subst he
    rfl

/-- Witness for C3: a one-entry all-`CLEAN` index whose IPC query
fails; the entry is invalidated, the bit is set (one entry had
`CLEAN`), and the untracked cache is switched off. -/
theorem refresh_failed_or_trivial_clears_all_witness :
    (∀ e ∈ (refresh_fsmonitor (ipc_env none) st_one_valid).1.entries,
        e.valid = false)
    ∧ ((refresh_fsmonitor (ipc_env none) st_one_valid).1.fsmonitor_changed = true
        ↔ ∃ e ∈ st_one_valid.entries, e.valid = true)
    ∧ (refresh_fsmonitor (ipc_env none) st_one_valid).1.untracked
        = st_one_valid.untracked.map (fun _ => false)
    ∧ (st_one_valid.entries = [] →
        (refresh_fsmonitor (ipc_env none) st_one_valid).1.fsmonitor_changed
          = false) :=
  refresh_failed_or_trivial_clears_all (ipc_env none) st_one_valid
    rfl rfl rfl (Or.inl rfl)

/-- C4 (the code evaluated at the failing input): in hook mode with no
stored token and `core.fsmonitorhookversion` unset, refresh skips the
hook entirely (empty invocation log) and invalidates every entry as
with a trivial response, but it does NOT synthesize a fresh token: the
resulting token is the empty string (the never-filled
`last_update_token` strbuf is detached into `fsmonitor_last_update`),
so the claimed and spec-intended non-empty token (invariant I5) does
not hold. -/
theorem refresh_hook_no_token_leaves_empty_token :
    refresh_fsmonitor c4_env c4_st
      = ({ entries := [⟨[97], false, false, false⟩], last_update := some [],
           has_run_once := true, fsmonitor_changed := true,
           untracked := some false }, [])
    ∧ (refresh_fsmonitor c4_env c4_st).1.last_update = some [] := by decide

/-- C5 (amended): in hook mode with an unset configured hook version
and a stored token, when the V2 hook invocation succeeds but its first
(token) field is empty, the client treats the query as a failure for
this call: everything is invalidated, the untracked cache is switched
off, the hook is NOT re-invoked with protocol version 1 (the
invocation log is exactly one V2 call), and the stored token is
replaced by the empty string. -/
theorem hook_v2_empty_token_is_failure (env : RefreshEnv) (st : IndexState)
    (t qr : List Nat) (hm : env.mode = FsmMode.hook)
    (hcfg : env.core_fsmonitorhookversion = none)
    (hr : st.has_run_once = false) (htok : st.last_update = some t)
    (hq : env.hook_response 2 t = some qr)
    (he : qr.takeWhile (fun b => b != 0) = []) :
    refresh_fsmonitor env st
      = ({ entries := st.entries.map inval, last_update := some [],
           has_run_once := true,
           fsmonitor_changed := st.fsmonitor_changed
             || st.entries.any (fun e => e.valid),
           untracked := st.untracked.map (fun _ => false) },
         [(2, t)]) := by
  obtain ⟨es, lu, ro, fc, ut⟩ := st
  dsimp only at hr htok hq ⊢
  subst hr
  subst htok
  simp [refresh_fsmonitor, refresh_hook, hm, hcfg, fsmonitor_hook_version,
    query_fsmonitor_hook, hq, he, apply_results]

/-- Counterexample to C5 as stated: a V2 hook that answers with an
empty token field (then a record `"a"`); the claim requires a
downgrade to V1 (a second invocation with protocol version 1, whose
payload `"b"` would be applied), but the invocation log contains only
the single V2 call, the index is bulk-invalidated as a failure, and
the stored token is destroyed (replaced by the empty string). -/
theorem hook_v2_empty_token_counterexample :
    refresh_fsmonitor c5_env st_one_valid
      = ({ entries := [⟨[97], false, false, false⟩], last_update := some [],
           has_run_once := true, fsmonitor_changed := true,
           untracked := some false },
         [(2, [116])])
    ∧ (1, [116]) ∉ (refresh_fsmonitor c5_env st_one_valid).2 := by decide

/-- Witness for the amended C5, at the same concrete input as the
counterexample. -/
theorem hook_v2_empty_token_is_failure_witness :
    c5_env.mode = FsmMode.hook
    ∧ c5_env.core_fsmonitorhookversion = none
    ∧ st_one_valid.has_run_once = false
    ∧ st_one_valid.last_update = some [116]
    ∧ c5_env.hook_response 2 [116] = some [0, 97, 0]
    ∧ ([0, 97, 0] : List Nat).takeWhile (fun b => b != 0) = []
    ∧ refresh_fsmonitor c5_env st_one_valid
      = ({ entries := st_one_valid.entries.map inval, last_update := some [],
           has_run_once := true,
           fsmonitor_changed := st_one_valid.fsmonitor_changed
             || st_one_valid.entries.any (fun e => e.valid),
           untracked := st_one_valid.untracked.map (fun _ => false) },
         [(2, [116])]) :=
  ⟨rfl, rfl, rfl, rfl, rfl, by decide,
   hook_v2_empty_token_is_failure c5_env st_one_valid [116] [0, 97, 0]
     rfl rfl rfl rfl rfl (by decide)⟩

end GitFsmonitor
